import Mathlib

/-!
The class `lru::cache` of src/lru_cache.h: a two-set rotating membership cache.

Shallow embedding of the class template `lru::cache<K, H, P, A>`.

* `std::unordered_set<K>` is a `Finset K` (an unordered set of keys without
  repetition); hashing and equality are the `DecidableEq K` instance.
* The C++ `int` fields are `Int`. Signed overflow is undefined in C++, so no
  wrap-around is modelled.
* `setstore_[2]` is the pair of fields `setstore_0`, `setstore_1`; an index
  other than `0` or `1` is out of bounds in the source, and the statements that
  speak about "the active" and "the standby" set assume `active_` is `0` or `1`
  (`cache.index_ok`) wherever the index matters.
* The mutex only serialises the calls; every operation is a function on states.
* `std::unordered_set::insert` may throw; the embedding describes the
  executions in which it does not (then `insert_element` returns `true`).
-/

namespace lru

/-- The macro `CACHE_DEFAULT_MAXSIZE`. -/
def CACHE_DEFAULT_MAXSIZE : Int := 1000

/-- The data members of `lru::cache` (the mutex carries no data). -/
structure cache (K : Type) where
  /-- maximum size in cache -/
  size_ : Int
  /-- current count of elements -/
  count_ : Int
  /-- the set `setstore_[0]` -/
  setstore_0 : Finset K
  /-- the set `setstore_[1]` -/
  setstore_1 : Finset K
  /-- index of active set -/
  active_ : Int
deriving DecidableEq

namespace cache

variable {K : Type} [DecidableEq K]

/-- The default constructor `cache() : size_(CACHE_DEFAULT_MAXSIZE)`; the other
members take their in-class initialisers (`count_{0}`, `active_{0}`, two empty
sets). -/
def new : cache K :=
  { size_ := CACHE_DEFAULT_MAXSIZE, count_ := 0, setstore_0 := ∅, setstore_1 := ∅, active_ := 0 }

/-- Reading `setstore_[i]`. -/
def setstore_ (c : cache K) (i : Int) : Finset K :=
  if i = 0 then c.setstore_0 else c.setstore_1

/-- Writing `setstore_[i]`. -/
def setstore_put (c : cache K) (i : Int) (v : Finset K) : cache K :=
  if i = 0 then { c with setstore_0 := v } else { c with setstore_1 := v }

/-- The member function `std::unordered_set::count`: 1 when the key is in the
set, 0 otherwise. -/
def set_count (st : Finset K) (elem : K) : Nat :=
  if elem ∈ st then 1 else 0

/-- The private routine `insert_element`: `setstore_[active_].insert(elem)`, then
`inserted = true` is returned. -/
def insert_element (c : cache K) (elem : K) : Bool × cache K :=
  let c1 := c.setstore_put c.active_ (Insert.insert elem (c.setstore_ c.active_))
  let inserted := true
  (inserted, c1)

/-- The member function `insert`. Both branches leave through
`if (status) goto cleanup;`, which skips `count_++` when `status` is true. -/
def insert (c : cache K) (elem : K) : cache K :=
  if c.count_ < c.size_ then
    let r := c.insert_element elem
    if r.1 then r.2 else { r.2 with count_ := r.2.count_ + 1 }
  else
    let c1 := { c with active_ := Int.tmod (c.active_ + 1) 2 }
    let c2 := { c1 with count_ := 0 }
    let c3 := c2.setstore_put c2.active_ ∅
    let r := c3.insert_element elem
    if r.1 then r.2 else { r.2 with count_ := r.2.count_ + 1 }

/-- The member function `clear`. -/
def clear (c : cache K) : cache K :=
  let c1 := c.setstore_put 0 ∅
  let c2 := c1.setstore_put 1 ∅
  { c2 with count_ := 0 }

/-- The member function `find`: the returned flag and the state it leaves. -/
def find (c : cache K) (elem : K) : Bool × cache K :=
  let found := decide (set_count (c.setstore_ c.active_) elem > 0)
  if found then (found, c)
  else
    let found := decide (set_count (c.setstore_ (Int.tmod (c.active_ + 1) 2)) elem > 0)
    if !found then (found, c)
    else (found, c.insert elem)

/-- The member function `set_size`. -/
def set_size (c : cache K) (size : Int) : cache K :=
  { c with size_ := size }

/-- The active generation, `setstore_[active_]`. -/
def active (c : cache K) : Finset K := c.setstore_ c.active_

/-- The standby generation, `setstore_[(active_+1)%2]`. -/
def standby (c : cache K) : Finset K := c.setstore_ (Int.tmod (c.active_ + 1) 2)

/-- The index `active_` is within the bounds of `setstore_[2]`. -/
def index_ok (c : cache K) : Prop := c.active_ = 0 ∨ c.active_ = 1

instance (c : cache K) : Decidable c.index_ok :=
  inferInstanceAs (Decidable (c.active_ = 0 ∨ c.active_ = 1))

/-- A run of `insert` calls, one per key, in the order of the list. -/
def insert_all (c : cache K) (keys : List K) : cache K :=
  keys.foldl insert c

/-- A newly constructed cache after `set_size(C)`. -/
def fresh (C : Int) : cache K := (new : cache K).set_size C

/-- A state used as a concrete instance: slot 0 is active and holds key 1, the
standby slot 1 holds key 2, the capacity is 2. -/
def standby_only_example : cache Nat :=
  { size_ := 2, count_ := 0, setstore_0 := {1}, setstore_1 := {2}, active_ := 0 }

end cache

/-- One call on the public interface of `lru::cache`, with its argument. -/
inductive op (K : Type) where
  | insert (elem : K)
  | find (elem : K)
  | clear
  | set_size (size : Int)
deriving DecidableEq

namespace cache

variable {K : Type} [DecidableEq K]

/-- One call: the value it returns (`find` alone returns one) and the state it
leaves. -/
def step (c : cache K) : op K → Option Bool × cache K
  | op.insert elem => (none, c.insert elem)
  | op.find elem => (some (c.find elem).1, (c.find elem).2)
  | op.clear => (none, c.clear)
  | op.set_size size => (none, c.set_size size)

/-- The state after a sequence of calls, made in the order of the list. -/
def exec (c : cache K) : List (op K) → cache K
  | [] => c
  | o :: os => exec (c.step o).2 os

/-- The values returned by the `find` calls of a sequence of calls, in order. -/
def outputs (c : cache K) : List (op K) → List Bool
  | [] => []
  | o :: os => (c.step o).1.toList ++ outputs (c.step o).2 os

/-- The same cache with the roles of the two slots exchanged: the contents of
`setstore_[0]` and `setstore_[1]` swapped and `active_` pointing at the other
slot. Used to compare a state whose active slot is 1 with one whose active slot
is 0. -/
def mirror (c : cache K) : cache K :=
  { c with setstore_0 := c.setstore_1, setstore_1 := c.setstore_0, active_ := 1 - c.active_ }

/-- A call that is `insert`, `find`, or `set_size` with an argument of at least
1 (not `clear`). -/
def positive_call : op K → Bool
  | op.insert _ => true
  | op.find _ => true
  | op.clear => false
  | op.set_size size => decide (1 ≤ size)

/-- The keys passed to `insert` in a sequence of calls. -/
def inserted_keys : List (op K) → Finset K
  | [] => ∅
  | op.insert elem :: os => Insert.insert elem (inserted_keys os)
  | _ :: os => inserted_keys os

end cache

end lru

namespace lru.cache

variable {K : Type}

/-! A new cache -/

theorem fresh_index_ok (C : Int) : (fresh C : cache K).index_ok := Or.inl rfl

theorem fresh_count_lt (C : Int) (hC : 1 ≤ C) :
    (fresh C : cache K).count_ < (fresh C : cache K).size_ := by
  show (0 : Int) < C
  omega

end lru.cache

namespace lru.cache

variable {K : Type} [DecidableEq K]

/-! The index arithmetic `(active_+1)%2` -/

theorem next_index_zero : Int.tmod ((0 : Int) + 1) 2 = 1 := by decide

theorem next_index_one : Int.tmod ((1 : Int) + 1) 2 = 0 := by decide

theorem tmod_one_two : Int.tmod 1 2 = 1 := by decide

theorem tmod_two_two : Int.tmod 2 2 = 0 := by decide

/-! One call of `insert` -/

theorem insert_element_fst (c : cache K) (k : K) : (c.insert_element k).1 = true := rfl

theorem insert_of_lt (c : cache K) (k : K) (h : c.count_ < c.size_) :
    c.insert k = c.setstore_put c.active_ (Insert.insert k (c.setstore_ c.active_)) := by
  simp [insert, insert_element, h]

theorem insert_of_ge (c : cache K) (k : K) (h : c.size_ ≤ c.count_) :
    c.insert k =
      if Int.tmod (c.active_ + 1) 2 = 0 then
        { c with active_ := Int.tmod (c.active_ + 1) 2, count_ := 0, setstore_0 := {k} }
      else
        { c with active_ := Int.tmod (c.active_ + 1) 2, count_ := 0, setstore_1 := {k} } := by
  have h1 : ¬ c.count_ < c.size_ := not_lt.mpr h
  by_cases h2 : Int.tmod (c.active_ + 1) 2 = 0 <;>
    simp [insert, insert_element, setstore_put, setstore_, h1, h2]

theorem insert_size (c : cache K) (k : K) : (c.insert k).size_ = c.size_ := by
  rcases lt_or_le c.count_ c.size_ with h | h
  · rw [insert_of_lt c k h]; unfold setstore_put; split_ifs <;> rfl
  · rw [insert_of_ge c k h]; split_ifs <;> rfl

theorem mem_active_insert (c : cache K) (k : K) : k ∈ (c.insert k).active := by
  rcases lt_or_le c.count_ c.size_ with h | h
  · rw [insert_of_lt c k h]
    by_cases h0 : c.active_ = 0 <;> simp [active, setstore_put, setstore_, h0]
  · rw [insert_of_ge c k h]
    by_cases h0 : Int.tmod (c.active_ + 1) 2 = 0 <;> simp [active, setstore_, h0]

theorem insert_of_lt_fields (c : cache K) (k : K)
    (hidx : c.index_ok) (hlt : c.count_ < c.size_) :
    (c.insert k).active = Insert.insert k c.active ∧
      (c.insert k).standby = c.standby ∧
      (c.insert k).active_ = c.active_ ∧
      (c.insert k).size_ = c.size_ ∧
      (c.insert k).count_ = c.count_ := by
  rw [insert_of_lt c k hlt]
  rcases hidx with h | h <;>
    simp [active, standby, setstore_, setstore_put, h, tmod_one_two, tmod_two_two]

/-! Runs of `insert` -/

theorem insert_all_nil (c : cache K) : c.insert_all [] = c := rfl

theorem insert_all_cons (c : cache K) (k : K) (ks : List K) :
    c.insert_all (k :: ks) = (c.insert k).insert_all ks := rfl

theorem insert_all_append (c : cache K) (xs ys : List K) :
    c.insert_all (xs ++ ys) = (c.insert_all xs).insert_all ys := by
  simp [insert_all, List.foldl_append]

/-- While `count_ < size_`, a run of inserts only grows the active set: nothing
in `insert` changes `count_` on that path, so the test never fails. -/
theorem insert_all_of_lt (ks : List K) (c : cache K)
    (hidx : c.index_ok) (hlt : c.count_ < c.size_) :
    (c.insert_all ks).active = c.active ∪ ks.toFinset ∧
      (c.insert_all ks).standby = c.standby ∧
      (c.insert_all ks).active_ = c.active_ ∧
      (c.insert_all ks).size_ = c.size_ ∧
      (c.insert_all ks).count_ = c.count_ := by
  induction ks generalizing c with
  | nil => simp [insert_all_nil]
  | cons k ks ih =>
    obtain ⟨ha, hs, hi, hz, hc⟩ := insert_of_lt_fields c k hidx hlt
    have hidx1 : (c.insert k).index_ok := by unfold index_ok; rw [hi]; exact hidx
    have hlt1 : (c.insert k).count_ < (c.insert k).size_ := by rw [hc, hz]; exact hlt
    obtain ⟨ha1, hs1, hi1, hz1, hc1⟩ := ih (c.insert k) hidx1 hlt1
    rw [insert_all_cons]
    refine ⟨?_, by rw [hs1, hs], by rw [hi1, hi], by rw [hz1, hz], by rw [hc1, hc]⟩
    rw [ha1, ha]
    ext x
    simp only [Finset.mem_union, Finset.mem_insert, List.toFinset_cons]
    tauto

/-- With a capacity of at least 1, inserts into a new cache never rotate: the
active set is the set of all keys inserted and the standby set stays empty. -/
theorem insert_all_fresh (C : Int) (hC : 1 ≤ C) (ks : List K) :
    ((fresh C : cache K).insert_all ks).active = ks.toFinset ∧
      ((fresh C : cache K).insert_all ks).standby = ∅ ∧
      ((fresh C : cache K).insert_all ks).active_ = 0 ∧
      ((fresh C : cache K).insert_all ks).size_ = C ∧
      ((fresh C : cache K).insert_all ks).count_ = 0 := by
  obtain ⟨ha, hs, hi, hz, hc⟩ :=
    insert_all_of_lt ks (fresh C : cache K) (fresh_index_ok C) (fresh_count_lt C hC)
  refine ⟨?_, ?_, ?_, ?_, ?_⟩
  · rw [ha]; simp [fresh, set_size, new, active, setstore_]
  · rw [hs]; simp [fresh, set_size, new, standby, setstore_, tmod_one_two]
  · rw [hi]; rfl
  · rw [hz]; rfl
  · rw [hc]; rfl

/-! Lookup -/

theorem find_fst (c : cache K) (k : K) :
    (c.find k).1 = decide (k ∈ c.active ∨ k ∈ c.standby) := by
  by_cases ha : k ∈ c.setstore_ c.active_ <;>
    by_cases hs : k ∈ c.setstore_ (Int.tmod (c.active_ + 1) 2) <;>
    simp [find, set_count, active, standby, ha, hs]

theorem find_snd_of_standby (c : cache K) (k : K) (hs : k ∈ c.standby) (ha : k ∉ c.active) :
    (c.find k).2 = c.insert k := by
  unfold standby at hs
  unfold active at ha
  simp [find, set_count, ha, hs]

theorem find_snd_of_active (c : cache K) (k : K) (ha : k ∈ c.active) : (c.find k).2 = c := by
  unfold active at ha
  simp [find, set_count, ha]

theorem find_snd_of_absent (c : cache K) (k : K) (ha : k ∉ c.active) (hs : k ∉ c.standby) :
    (c.find k).2 = c := by
  unfold standby at hs
  unfold active at ha
  simp [find, set_count, ha, hs]

/-! The claims about a single call -/

/-- C4. `find(k)` returns true exactly when `k` is in the active generation or in
the standby generation of the state in which it is called. -/
theorem C4_find_true_iff_member (c : cache K) (k : K) :
    (c.find k).1 = true ↔ (k ∈ c.active ∨ k ∈ c.standby) := by
  rw [find_fst]; simp

/-- C5. Resurrection: when `k` is in the standby generation and not in the active
one, `find(k)` returns true and leaves `k` in the active generation, whatever
the count and the capacity are. -/
theorem C5_find_promotes_standby_key (c : cache K) (k : K)
    (hs : k ∈ c.standby) (ha : k ∉ c.active) :
    (c.find k).1 = true ∧ k ∈ (c.find k).2.active := by
  refine ⟨?_, ?_⟩
  · rw [find_fst]; simp [hs]
  · rw [find_snd_of_standby c k hs ha]; exact mem_active_insert c k

/-- C6. After `insert(k)`, `find(k)` returns true, from every state. -/
theorem C6_find_after_insert (c : cache K) (k : K) : ((c.insert k).find k).1 = true := by
  rw [find_fst]; simp [mem_active_insert c k]

/-- C8. Insert into a non-full active generation: when `count_ < size_`, after
`insert(k)` the active generation is the old one with `k` added, and the standby
generation, the active index and the capacity are the old ones. -/
theorem C8_insert_below_capacity (c : cache K) (k : K)
    (hidx : c.index_ok) (hlt : c.count_ < c.size_) :
    (c.insert k).active = Insert.insert k c.active ∧
      (c.insert k).standby = c.standby ∧
      (c.insert k).active_ = c.active_ ∧
      (c.insert k).size_ = c.size_ := by
  obtain ⟨ha, hs, hi, hz, _⟩ := insert_of_lt_fields c k hidx hlt
  exact ⟨ha, hs, hi, hz⟩

/-- C9. Insert into a full active generation rotates: when `count_ >= size_`,
after `insert(k)` the active index is the other slot (0 becomes 1, 1 becomes 0),
the new active generation is exactly `{k}`, the new standby generation is the
old active generation, and the capacity is the old one. -/
theorem C9_insert_at_capacity_rotates (c : cache K) (k : K)
    (hidx : c.index_ok) (hge : c.size_ ≤ c.count_) :
    (c.insert k).active_ = 1 - c.active_ ∧
      (c.insert k).active = {k} ∧
      (c.insert k).standby = c.active ∧
      (c.insert k).size_ = c.size_ := by
  rw [insert_of_ge c k hge]
  rcases hidx with h | h <;>
    simp [active, standby, setstore_, h, tmod_one_two, tmod_two_two]

/-- C7. Resurrection survives the next rotation: with capacity `C >= 1`, a key
`A` and `2*C` keys `xs ++ ys`, pairwise distinct and distinct from `A`
(`xs` the first `C`, `ys` the remaining `C`), on a new cache after
`set_size(C)`: after `insert(A)` and the inserts of `xs`, `find(A)` returns
true, and after the inserts of `ys` on the state that `find` left, `find(A)`
returns true again. -/
theorem C7_find_true_before_and_after_second_batch (C : Int) (A : K) (xs ys : List K)
    (hC : 1 ≤ C) (hx : (xs.length : Int) = C) (hy : (ys.length : Int) = C)
    (_hnd : (A :: (xs ++ ys)).Nodup) :
    ((((fresh C : cache K).insert A).insert_all xs).find A).1 = true ∧
      ((((((fresh C : cache K).insert A).insert_all xs).find A).2.insert_all ys).find A).1
        = true := by
  have h1 := insert_all_fresh C hC (A :: xs)
  rw [insert_all_cons] at h1
  obtain ⟨ha, _, hi, hz, hc⟩ := h1
  have hA : A ∈ (((fresh C : cache K).insert A).insert_all xs).active := by
    rw [ha]; simp
  have hfix := find_snd_of_active _ A hA
  refine ⟨?_, ?_⟩
  · rw [find_fst]; simp [hA]
  · rw [hfix]
    have hidx : (((fresh C : cache K).insert A).insert_all xs).index_ok := Or.inl hi
    have hlt : (((fresh C : cache K).insert A).insert_all xs).count_
        < (((fresh C : cache K).insert A).insert_all xs).size_ := by
      rw [hc, hz]; omega
    obtain ⟨ha2, _⟩ := insert_all_of_lt ys _ hidx hlt
    rw [find_fst]
    simp [ha2, hA]

/-! The claims about runs from a new cache -/

/-- C1 (the code departs from it). Capacity 1 and the distinct keys 10, 20, 30
inserted into a new cache: no insert rotates, so after the second insert the
active set holds 2 keys (more than the capacity 1) and after the third the two
sets together hold 3 keys (more than 2 * 1); `count_` is still 0. -/
theorem C1_capacity_bound_exceeded :
    ((fresh 1 : cache Nat).insert_all [10, 20]).active = {10, 20} ∧
      (1 : Int) < (((fresh 1 : cache Nat).insert_all [10, 20]).active.card : Int) ∧
      ((fresh 1 : cache Nat).insert_all [10, 20, 30]).active = {10, 20, 30} ∧
      ((fresh 1 : cache Nat).insert_all [10, 20, 30]).standby = ∅ ∧
      (2 * 1 : Int) < (((((fresh 1 : cache Nat).insert_all [10, 20, 30]).active ∪
        ((fresh 1 : cache Nat).insert_all [10, 20, 30]).standby).card : Nat) : Int) ∧
      ((fresh 1 : cache Nat).insert_all [10, 20, 30]).count_ = 0 := by
  decide

/-- C2 (the code departs from it). Capacity 1 and the distinct keys 0, 1, 2: after
the inserts of 0 and 1, `find(0)` returns true, and after the inserts of 0, 1
and 2 (one more full batch) `find(0)` returns true as well, where the recency
window says false: key 0 was never moved out of the active set. -/
theorem C2_first_key_found_after_window :
    (((fresh 1 : cache Nat).insert_all [0, 1]).find 0).1 = true ∧
      (((fresh 1 : cache Nat).insert_all [0, 1, 2]).find 0).1 = true ∧
      (0 : Nat) ∈ ((fresh 1 : cache Nat).insert_all [0, 1, 2]).active := by
  decide

/-- C3 (the code departs from it). The example of the specification, capacity 2
and the keys "a", "b", "c": after the third insert the active set is
`{"a", "b", "c"}` and the standby set is empty, where a rotation would give the
active set `{"c"}` and the standby set `{"a", "b"}`. -/
theorem C3_no_rotation_on_third_insert :
    ((fresh 2 : cache String).insert_all ["a", "b", "c"]).active = {"a", "b", "c"} ∧
      ((fresh 2 : cache String).insert_all ["a", "b", "c"]).standby = ∅ ∧
      ((fresh 2 : cache String).insert_all ["a", "b", "c"]).active ≠ {"c"} ∧
      ((fresh 2 : cache String).insert_all ["a", "b", "c"]).standby ≠ {"a", "b"} ∧
      ((fresh 2 : cache String).insert_all ["a", "b", "c"]).active_ = 0 := by
  decide

/-! Concrete instances -/

/-- Instance of C5: slot 0 active with `{1}`, key 2 only in the standby slot 1. -/
theorem C5_find_promotes_standby_key_witness :
    ((2 : Nat) ∈ standby_only_example.standby ∧ (2 : Nat) ∉ standby_only_example.active) ∧
      ((standby_only_example.find 2).1 = true ∧
        (2 : Nat) ∈ (standby_only_example.find 2).2.active) :=
  ⟨by decide, C5_find_promotes_standby_key standby_only_example 2 (by decide) (by decide)⟩

/-- Instance of C6 and the sample program: a default cache after
`insert("hello")`, `insert("world")` answers `find("hello")` with true. -/
theorem C6_sample_program :
    ((((new : cache String).insert "hello").insert "world").find "hello").1 = true ∧
      (((new : cache String).insert "hello").find "hello").1 = true :=
  ⟨by decide, C6_find_after_insert (new : cache String) "hello"⟩

/-- Instance of C7: capacity 1, `A = 0`, first batch `[1]`, second batch `[2]`. -/
theorem C7_find_true_before_and_after_second_batch_witness :
    ((((fresh 1 : cache Nat).insert 0).insert_all [1]).find 0).1 = true ∧
      ((((((fresh 1 : cache Nat).insert 0).insert_all [1]).find 0).2.insert_all [2]).find 0).1
        = true :=
  C7_find_true_before_and_after_second_batch 1 0 [1] [2] (by decide) (by decide) (by decide)
    (by decide)

/-- Instance of C8: the sample program's second insert, into the default cache
holding "hello". -/
theorem C8_insert_below_capacity_witness :
    (((new : cache String).insert "hello").insert "world").active = {"world", "hello"} ∧
      (((new : cache String).insert "hello").insert "world").standby = ∅ ∧
      (((new : cache String).insert "hello").insert "world").active_ = 0 ∧
      (((new : cache String).insert "hello").insert "world").size_ = 1000 := by
  have h := C8_insert_below_capacity ((new : cache String).insert "hello") "world"
    (by decide) (by decide)
  have ha : ((new : cache String).insert "hello").active = {"hello"} := by decide
  have hs : ((new : cache String).insert "hello").standby = ∅ := by decide
  have hi : ((new : cache String).insert "hello").active_ = 0 := by decide
  have hz : ((new : cache String).insert "hello").size_ = 1000 := by decide
  rw [ha, hs, hi, hz] at h
  exact h

/-- Instance of C9: capacity 0, where `count_ >= size_` holds from the start; the
state after `insert(1)` has slot 1 active, and `insert(2)` makes slot 0 active
with `{2}` and leaves `{1}` in standby. -/
theorem C9_insert_at_capacity_rotates_witness :
    ((fresh 0 : cache Nat).insert 1).active_ = 1 ∧
      (((fresh 0 : cache Nat).insert 1).insert 2).active_ = 1 - 1 ∧
      (((fresh 0 : cache Nat).insert 1).insert 2).active = {2} ∧
      (((fresh 0 : cache Nat).insert 1).insert 2).standby = {1} ∧
      (((fresh 0 : cache Nat).insert 1).insert 2).size_ = 0 := by
  have h := C9_insert_at_capacity_rotates ((fresh 0 : cache Nat).insert 1) 2
    (by decide) (by decide)
  have ha : ((fresh 0 : cache Nat).insert 1).active = {1} := by decide
  have hi : ((fresh 0 : cache Nat).insert 1).active_ = 1 := by decide
  have hz : ((fresh 0 : cache Nat).insert 1).size_ = 0 := by decide
  rw [ha, hi, hz] at h
  exact ⟨hi, h⟩

end lru.cache

namespace lru.cache

variable {K : Type}

/-- C10. After `clear()` both sets are empty (so the active and the standby
generation are), `count_` is 0, and `size_` and `active_` are what they were. -/
theorem C10_clear_empties_and_keeps_config (c : cache K) :
    c.clear.setstore_0 = ∅ ∧ c.clear.setstore_1 = ∅ ∧
      c.clear.active = ∅ ∧ c.clear.standby = ∅ ∧
      c.clear.count_ = 0 ∧
      c.clear.size_ = c.size_ ∧ c.clear.active_ = c.active_ := by
  simp [clear, setstore_put, active, standby, setstore_]

end lru.cache

namespace lru.cache

variable {K : Type} [DecidableEq K]

/-! What one call does to `count_` and `active_` -/

theorem insert_count (c : cache K) (k : K) :
    (c.insert k).count_ = if c.count_ < c.size_ then c.count_ else 0 := by
  rcases lt_or_le c.count_ c.size_ with h | h
  · rw [insert_of_lt c k h, if_pos h]; unfold setstore_put; split_ifs <;> rfl
  · rw [insert_of_ge c k h, if_neg (not_lt.mpr h)]; split_ifs <;> rfl

theorem insert_count_zero (c : cache K) (k : K) (h : c.count_ = 0) : (c.insert k).count_ = 0 := by
  rw [insert_count]; split_ifs <;> simp [h]

theorem insert_index_ok (c : cache K) (k : K) (h : c.index_ok) : (c.insert k).index_ok := by
  rcases lt_or_le c.count_ c.size_ with hlt | hge
  · rw [insert_of_lt c k hlt]
    rcases h with h | h <;> simp [index_ok, setstore_put, h]
  · rw [insert_of_ge c k hge]
    rcases h with h | h <;> simp [index_ok, h, tmod_one_two, tmod_two_two]

theorem find_snd_cases (c : cache K) (k : K) : (c.find k).2 = c ∨ (c.find k).2 = c.insert k := by
  by_cases ha : k ∈ c.active
  · exact Or.inl (find_snd_of_active c k ha)
  · by_cases hs : k ∈ c.standby
    · exact Or.inr (find_snd_of_standby c k hs ha)
    · exact Or.inl (find_snd_of_absent c k ha hs)

theorem step_count_zero (c : cache K) (o : op K) (h : c.count_ = 0) : (c.step o).2.count_ = 0 := by
  cases o with
  | insert k => exact insert_count_zero c k h
  | find k =>
    show (c.find k).2.count_ = 0
    rcases find_snd_cases c k with e | e <;> rw [e]
    · exact h
    · exact insert_count_zero c k h
  | clear => rfl
  | set_size n => exact h

theorem step_index_ok (c : cache K) (o : op K) (h : c.index_ok) : (c.step o).2.index_ok := by
  cases o with
  | insert k => exact insert_index_ok c k h
  | find k =>
    show (c.find k).2.index_ok
    rcases find_snd_cases c k with e | e <;> rw [e]
    · exact h
    · exact insert_index_ok c k h
  | clear =>
    show c.clear.index_ok
    rcases h with h | h <;> simp [index_ok, clear, setstore_put, h]
  | set_size n => exact h

theorem exec_cons (c : cache K) (o : op K) (os : List (op K)) :
    c.exec (o :: os) = (c.step o).2.exec os := rfl

theorem exec_count_zero (os : List (op K)) (c : cache K) (h : c.count_ = 0) :
    (c.exec os).count_ = 0 := by
  induction os generalizing c with
  | nil => exact h
  | cons o os ih => rw [exec_cons]; exact ih _ (step_count_zero c o h)

theorem exec_index_ok (os : List (op K)) (c : cache K) (h : c.index_ok) :
    (c.exec os).index_ok := by
  induction os generalizing c with
  | nil => exact h
  | cons o os ih => rw [exec_cons]; exact ih _ (step_index_ok c o h)

theorem insert_of_ge_fields (c : cache K) (k : K)
    (hidx : c.index_ok) (hge : c.size_ ≤ c.count_) :
    (c.insert k).active_ = 1 - c.active_ ∧
      (c.insert k).active = {k} ∧
      (c.insert k).standby = c.active ∧
      (c.insert k).size_ = c.size_ ∧
      (c.insert k).count_ = 0 := by
  rw [insert_of_ge c k hge]
  rcases hidx with h | h <;>
    simp [active, standby, setstore_, h, tmod_one_two, tmod_two_two]

end lru.cache

namespace lru.cache

variable {K : Type} [DecidableEq K]

/-! The claims about `set_size`, `count_`, read-only lookups and the standby set -/

/-- C12. `set_size(n)` evicts nothing: for every state and every integer `n`
(zero and negative values too), afterwards `size_` is `n`, both sets, the active
and the standby generation, `active_` and `count_` are what they were, and a
`find(k)` that returned true before the call returns true right after it. -/
theorem C12_set_size_changes_only_capacity (c : cache K) (n : Int) :
    (c.set_size n).size_ = n ∧
      (c.set_size n).setstore_0 = c.setstore_0 ∧
      (c.set_size n).setstore_1 = c.setstore_1 ∧
      (c.set_size n).active = c.active ∧
      (c.set_size n).standby = c.standby ∧
      (c.set_size n).active_ = c.active_ ∧
      (c.set_size n).count_ = c.count_ ∧
      ∀ k : K, (c.find k).1 = true → ((c.set_size n).find k).1 = true := by
  refine ⟨rfl, rfl, rfl, rfl, rfl, rfl, rfl, ?_⟩
  intro k hk
  rw [find_fst] at hk ⊢
  exact hk

/-- C17. A `find` that does not resurrect is read-only: when `k` is in the active
generation, or in neither generation, `find(k)` leaves the whole state (both
sets, `active_`, `count_`, `size_`) as it was. -/
theorem C17_find_without_resurrection_keeps_state (c : cache K) (k : K)
    (h : k ∈ c.active ∨ (k ∉ c.active ∧ k ∉ c.standby)) :
    (c.find k).2 = c := by
  rcases h with ha | ⟨ha, hs⟩
  · exact find_snd_of_active c k ha
  · exact find_snd_of_absent c k ha hs

/-- C18. The standby generation is never written to key by key: for every state
with `active_` in `{0, 1}` and every call (any argument), the standby generation
after the call is the standby generation before it, or empty, or the active
generation before it. -/
theorem C18_standby_only_kept_cleared_or_rotated (c : cache K) (o : op K) (hidx : c.index_ok) :
    (c.step o).2.standby = c.standby ∨
      (c.step o).2.standby = ∅ ∨
      (c.step o).2.standby = c.active := by
  have hins : ∀ k : K, (c.insert k).standby = c.standby ∨ (c.insert k).standby = ∅ ∨
      (c.insert k).standby = c.active := by
    intro k
    rcases lt_or_le c.count_ c.size_ with hlt | hge
    · exact Or.inl (insert_of_lt_fields c k hidx hlt).2.1
    · exact Or.inr (Or.inr (insert_of_ge_fields c k hidx hge).2.2.1)
  cases o with
  | insert k => exact hins k
  | find k =>
    show (c.find k).2.standby = c.standby ∨ (c.find k).2.standby = ∅ ∨
      (c.find k).2.standby = c.active
    rcases find_snd_cases c k with e | e <;> rw [e]
    · exact Or.inl rfl
    · exact hins k
  | clear =>
    refine Or.inr (Or.inl ?_)
    show c.clear.standby = ∅
    simp [clear, setstore_put, standby, setstore_]
  | set_size n => exact Or.inl rfl

/-- C19. In every state reached from a newly constructed cache by a sequence of
`insert`, `find`, `clear` and `set_size` calls, `count_` is 0. -/
theorem C19_count_stays_zero (os : List (op K)) : ((new : cache K).exec os).count_ = 0 :=
  exec_count_zero os (new : cache K) rfl

/-- C14. Zero or negative capacity: in a state reached from a newly constructed
cache whose `size_` is at most 0, `insert(k)` rotates: `active_` flips to the
other slot, the active generation afterwards is exactly `{k}`, and the two
generations together hold only keys of the old active generation and `k`. -/
theorem C14_insert_rotates_at_nonpositive_capacity (os : List (op K)) (k : K)
    (hsize : ((new : cache K).exec os).size_ ≤ 0) :
    (((new : cache K).exec os).insert k).active_ = 1 - ((new : cache K).exec os).active_ ∧
      (((new : cache K).exec os).insert k).active = {k} ∧
      (((new : cache K).exec os).insert k).active ∪ (((new : cache K).exec os).insert k).standby
        ⊆ Insert.insert k ((new : cache K).exec os).active := by
  have hc : ((new : cache K).exec os).count_ = 0 := exec_count_zero os (new : cache K) rfl
  have hidx : ((new : cache K).exec os).index_ok := exec_index_ok os (new : cache K) (Or.inl rfl)
  have hge : ((new : cache K).exec os).size_ ≤ ((new : cache K).exec os).count_ := by
    rw [hc]; exact hsize
  obtain ⟨hi, ha, hs, _, _⟩ := insert_of_ge_fields _ k hidx hge
  refine ⟨hi, ha, ?_⟩
  rw [ha, hs]
  intro x hx
  simp only [Finset.mem_union, Finset.mem_singleton, Finset.mem_insert] at hx ⊢
  exact hx

/-! Concrete runs -/

/-- C13 (the code departs from it). Capacity 3, the keys 1 and 2 inserted,
`set_size(1)`, then `insert(3)`: `count_` is still 0 at the last insert, so
`count_ < size_` holds and no rotation happens; the active set is `{1, 2, 3}`
and the standby set is empty, where the claim has `{3}` and `{1, 2}`. -/
theorem C13_no_rotation_after_shrinking :
    ((((fresh 3 : cache Nat).insert_all [1, 2]).set_size 1).insert 3).active = {1, 2, 3} ∧
      ((((fresh 3 : cache Nat).insert_all [1, 2]).set_size 1).insert 3).standby = ∅ ∧
      ((((fresh 3 : cache Nat).insert_all [1, 2]).set_size 1).insert 3).active ≠ {3} ∧
      ((((fresh 3 : cache Nat).insert_all [1, 2]).set_size 1).insert 3).standby ≠ {1, 2} ∧
      (((fresh 3 : cache Nat).insert_all [1, 2]).set_size 1).count_ = 0 := by
  decide

/-- C15 (the code departs from it). Two threads on one cache of capacity 1, the
first inserting 1 then 2, the second inserting 3. Each `insert` runs under the
lock from start to end, so a run is an order of the three calls that keeps 1
before 2. In each of the three orders the cache ends with the keys 1, 2, 3: a
subset of the inserted keys, but 3 keys, more than 2 * 1. -/
theorem C15_two_threads_exceed_twice_capacity :
    (((fresh 1 : cache Nat).insert_all [1, 2, 3]).active ∪
        ((fresh 1 : cache Nat).insert_all [1, 2, 3]).standby = {1, 2, 3}) ∧
      (((fresh 1 : cache Nat).insert_all [1, 3, 2]).active ∪
        ((fresh 1 : cache Nat).insert_all [1, 3, 2]).standby = {1, 2, 3}) ∧
      (((fresh 1 : cache Nat).insert_all [3, 1, 2]).active ∪
        ((fresh 1 : cache Nat).insert_all [3, 1, 2]).standby = {1, 2, 3}) ∧
      (2 * 1 : Int) < ((({1, 2, 3} : Finset Nat).card : Nat) : Int) := by
  decide

/-- C16 (the code departs from it). `count_` after `insert`: on a default cache
(`count_ = 0 < size_ = 1000`) it is 0 after `insert("hello")` and still 0
after a second, duplicate `insert("hello")`, where the claim has 1 and 2; with
capacity 0 (`count_ >= size_`) it is 0 after `insert(1)`, where the claim
has 1. -/
theorem C16_count_not_incremented :
    ((new : cache String).insert "hello").count_ = 0 ∧
      (((new : cache String).insert "hello").insert "hello").count_ = 0 ∧
      ((fresh 0 : cache Nat).insert 1).count_ = 0 ∧
      (new : cache String).count_ < (new : cache String).size_ ∧
      (fresh 0 : cache Nat).size_ ≤ (fresh 0 : cache Nat).count_ := by
  decide

/-- Instance of C14: after `set_size(0)` and `insert(1)` slot 1 is active with
`{1}`; `insert(2)` makes slot 0 active with `{2}`. -/
theorem C14_insert_rotates_at_nonpositive_capacity_witness :
    ((new : cache Nat).exec [op.set_size 0, op.insert 1]).size_ ≤ 0 ∧
      ((new : cache Nat).exec [op.set_size 0, op.insert 1]).active_ = 1 ∧
      ((((new : cache Nat).exec [op.set_size 0, op.insert 1]).insert 2).active_ =
          1 - ((new : cache Nat).exec [op.set_size 0, op.insert 1]).active_ ∧
        (((new : cache Nat).exec [op.set_size 0, op.insert 1]).insert 2).active = {2} ∧
        (((new : cache Nat).exec [op.set_size 0, op.insert 1]).insert 2).active ∪
            (((new : cache Nat).exec [op.set_size 0, op.insert 1]).insert 2).standby
          ⊆ Insert.insert 2 ((new : cache Nat).exec [op.set_size 0, op.insert 1]).active) :=
  ⟨by decide, by decide,
    C14_insert_rotates_at_nonpositive_capacity [op.set_size 0, op.insert 1] 2 (by decide)⟩

/-- Instance of C17: in `standby_only_example` key 1 is in the active set and
key 5 is in neither set; both lookups leave the state as it was. -/
theorem C17_find_without_resurrection_keeps_state_witness :
    ((1 : Nat) ∈ standby_only_example.active ∧ (standby_only_example.find 1).2
        = standby_only_example) ∧
      (((5 : Nat) ∉ standby_only_example.active ∧ (5 : Nat) ∉ standby_only_example.standby) ∧
        (standby_only_example.find 5).2 = standby_only_example) :=
  ⟨⟨by decide, C17_find_without_resurrection_keeps_state standby_only_example 1
      (Or.inl (by decide))⟩,
    ⟨by decide, C17_find_without_resurrection_keeps_state standby_only_example 5
      (Or.inr (by decide))⟩⟩

/-- Instance of C18: in `standby_only_example` (standby `{2}`), `insert(3)` leaves
the standby set as it was. -/
theorem C18_standby_only_kept_cleared_or_rotated_witness :
    standby_only_example.index_ok ∧
      ((standby_only_example.step (op.insert 3)).2.standby = standby_only_example.standby ∨
        (standby_only_example.step (op.insert 3)).2.standby = ∅ ∨
        (standby_only_example.step (op.insert 3)).2.standby = standby_only_example.active) :=
  ⟨by decide, C18_standby_only_kept_cleared_or_rotated standby_only_example (op.insert 3)
    (by decide)⟩

end lru.cache

namespace lru.cache

variable {K : Type}

/-! Exchanging the two slots -/

theorem mirror_index_ok (c : cache K) (h : c.index_ok) : c.mirror.index_ok := by
  rcases h with h | h <;> simp [index_ok, mirror, h]

theorem mirror_active (c : cache K) (h : c.index_ok) : c.mirror.active = c.active := by
  rcases h with h | h <;> simp [active, setstore_, mirror, h]

theorem mirror_standby (c : cache K) (h : c.index_ok) : c.mirror.standby = c.standby := by
  rcases h with h | h <;> simp [standby, setstore_, mirror, h, Int.tmod]

theorem clear_eq_fresh_or_mirror (c : cache K) (h : c.index_ok) :
    c.clear = fresh c.size_ ∨ c.clear = (fresh c.size_ : cache K).mirror := by
  rcases h with h | h
  · left; simp [clear, setstore_put, fresh, set_size, new, h]
  · right; simp [clear, setstore_put, fresh, set_size, new, mirror, h]

end lru.cache

namespace lru.cache

variable {K : Type} [DecidableEq K]

theorem mirror_insert (c : cache K) (k : K) (h : c.index_ok) :
    c.mirror.insert k = (c.insert k).mirror := by
  rcases lt_or_le c.count_ c.size_ with hlt | hge
  · have hlt2 : c.mirror.count_ < c.mirror.size_ := hlt
    rw [insert_of_lt c k hlt, insert_of_lt c.mirror k hlt2]
    rcases h with h | h <;> simp [setstore_put, setstore_, mirror, h]
  · have hge2 : c.mirror.size_ ≤ c.mirror.count_ := hge
    rw [insert_of_ge c k hge, insert_of_ge c.mirror k hge2]
    rcases h with h | h <;> simp [mirror, h, tmod_one_two, tmod_two_two]

theorem mirror_find (c : cache K) (k : K) (h : c.index_ok) :
    c.mirror.find k = ((c.find k).1, (c.find k).2.mirror) := by
  have hf : (c.mirror.find k).1 = (c.find k).1 := by
    rw [find_fst, find_fst, mirror_active c h, mirror_standby c h]
  have hs : (c.mirror.find k).2 = (c.find k).2.mirror := by
    by_cases ha : k ∈ c.active
    · have ha2 : k ∈ c.mirror.active := by rw [mirror_active c h]; exact ha
      rw [find_snd_of_active c k ha, find_snd_of_active c.mirror k ha2]
    · have ha2 : k ∉ c.mirror.active := by rw [mirror_active c h]; exact ha
      by_cases hb : k ∈ c.standby
      · have hb2 : k ∈ c.mirror.standby := by rw [mirror_standby c h]; exact hb
        rw [find_snd_of_standby c k hb ha, find_snd_of_standby c.mirror k hb2 ha2]
        exact mirror_insert c k h
      · have hb2 : k ∉ c.mirror.standby := by rw [mirror_standby c h]; exact hb
        rw [find_snd_of_absent c k ha hb, find_snd_of_absent c.mirror k ha2 hb2]
  exact Prod.ext hf hs

theorem mirror_step (c : cache K) (o : op K) (h : c.index_ok) :
    c.mirror.step o = ((c.step o).1, (c.step o).2.mirror) := by
  cases o with
  | insert k =>
    show ((none : Option Bool), c.mirror.insert k) = (none, (c.insert k).mirror)
    rw [mirror_insert c k h]
  | find k =>
    show (some (c.mirror.find k).1, (c.mirror.find k).2) =
      (some (c.find k).1, (c.find k).2.mirror)
    rw [mirror_find c k h]
  | clear =>
    show ((none : Option Bool), c.mirror.clear) = (none, c.clear.mirror)
    simp [clear, mirror, setstore_put]
  | set_size n => rfl

theorem outputs_cons (c : cache K) (o : op K) (os : List (op K)) :
    c.outputs (o :: os) = (c.step o).1.toList ++ (c.step o).2.outputs os := rfl

theorem outputs_mirror (os : List (op K)) (c : cache K) (h : c.index_ok) :
    c.mirror.outputs os = c.outputs os := by
  induction os generalizing c with
  | nil => rfl
  | cons o os ih =>
    rw [outputs_cons, outputs_cons, mirror_step c o h]
    show (c.step o).1.toList ++ (c.step o).2.mirror.outputs os = _
    rw [ih _ (step_index_ok c o h)]

/-- C11. A cleared cache behaves as a new one: for every state `s` with `active_`
in `{0, 1}`, after `clear()` every `find(k)` returns false, and every sequence
of `insert`, `find`, `set_size` and `clear` calls returns from its `find`
calls the same values as on a newly constructed cache after
`set_size(s.size_)`, whichever slot is active in `s`. -/
theorem C11_cleared_cache_behaves_as_new (s : cache K) (hidx : s.index_ok) :
    (∀ k : K, (s.clear.find k).1 = false) ∧
      ∀ os : List (op K), s.clear.outputs os = (fresh s.size_ : cache K).outputs os := by
  refine ⟨?_, ?_⟩
  · intro k
    rw [find_fst]
    simp [clear, setstore_put, active, standby, setstore_]
  · intro os
    rcases clear_eq_fresh_or_mirror s hidx with e | e
    · rw [e]
    · rw [e]; exact outputs_mirror os _ (fresh_index_ok s.size_)

/-- Instance of C11: a state with slot 1 active and keys in both slots, cleared,
against a new cache of the same capacity, on a sequence with a rotation. -/
theorem C11_cleared_cache_behaves_as_new_witness :
    (∀ k : Nat, ((exec (new : cache Nat) [op.set_size 0, op.insert 1, op.insert 2,
        op.insert 3]).clear.find k).1 = false) ∧
      ∀ os : List (op Nat),
        (exec (new : cache Nat) [op.set_size 0, op.insert 1, op.insert 2, op.insert 3]).clear.outputs
            os =
          (fresh (exec (new : cache Nat) [op.set_size 0, op.insert 1, op.insert 2,
            op.insert 3]).size_ : cache Nat).outputs os :=
  C11_cleared_cache_behaves_as_new _ (by decide)

end lru.cache

namespace lru.cache

variable {K : Type} [DecidableEq K]

/-! Runs without `clear` and with positive capacities -/

theorem inserted_keys_insert (k : K) (os : List (op K)) :
    inserted_keys (op.insert k :: os) = Insert.insert k (inserted_keys os) := rfl

theorem inserted_keys_find (k : K) (os : List (op K)) :
    inserted_keys (op.find k :: os) = inserted_keys os := rfl

theorem inserted_keys_set_size (n : Int) (os : List (op K)) :
    inserted_keys (op.set_size n :: os) = inserted_keys os := rfl

/-- From a state with `count_ = 0`, `size_ >= 1`, slot 0 active and slot 1
empty, a sequence of positive calls keeps all four and collects the inserted
keys in slot 0. -/
theorem exec_positive (os : List (op K)) (c : cache K)
    (hc : c.count_ = 0) (hz : 1 ≤ c.size_) (hi : c.active_ = 0) (h1 : c.setstore_1 = ∅)
    (hpos : ∀ o ∈ os, positive_call o = true) :
    (c.exec os).count_ = 0 ∧ 1 ≤ (c.exec os).size_ ∧ (c.exec os).active_ = 0 ∧
      (c.exec os).setstore_1 = ∅ ∧
      (c.exec os).setstore_0 = c.setstore_0 ∪ inserted_keys os := by
  induction os generalizing c with
  | nil => exact ⟨hc, hz, hi, h1, by simp [exec, inserted_keys]⟩
  | cons o os ih =>
    have hpos1 : ∀ o1 ∈ os, positive_call o1 = true :=
      fun o1 ho1 => hpos o1 (List.mem_cons_of_mem o ho1)
    have ho : positive_call o = true := hpos o (List.mem_cons_self o os)
    have hlt : c.count_ < c.size_ := by rw [hc]; omega
    have hins : ∀ k : K, c.insert k = { c with setstore_0 := Insert.insert k c.setstore_0 } := by
      intro k
      rw [insert_of_lt c k hlt]
      simp [setstore_put, setstore_, hi]
    rw [exec_cons]
    cases o with
    | insert k =>
      have e : (c.step (op.insert k)).2 = { c with setstore_0 := Insert.insert k c.setstore_0 } :=
        hins k
      obtain ⟨a, b, d, f, g⟩ := ih (c.step (op.insert k)).2 (by rw [e]; exact hc)
        (by rw [e]; exact hz) (by rw [e]; exact hi) (by rw [e]; exact h1) hpos1
      refine ⟨a, b, d, f, ?_⟩
      rw [g, e, inserted_keys_insert]
      ext x
      simp only [Finset.mem_union, Finset.mem_insert]
      tauto
    | find k =>
      have e : (c.step (op.find k)).2 = c := by
        show (c.find k).2 = c
        by_cases ha : k ∈ c.active
        · exact find_snd_of_active c k ha
        · refine find_snd_of_absent c k ha ?_
          simp [standby, setstore_, hi, h1, tmod_one_two]
      rw [e, inserted_keys_find]
      exact ih c hc hz hi h1 hpos1
    | clear => simp [positive_call] at ho
    | set_size n =>
      have hn : 1 ≤ n := by simpa [positive_call] using ho
      rw [inserted_keys_set_size]
      exact ih (c.step (op.set_size n)).2 hc hn hi h1 hpos1

/-- C20. Retention under positive capacity: after every sequence of `insert`,
`find` and `set_size` calls on a newly constructed cache in which every
`set_size` argument is at least 1 (no `clear`), `active_` is 0, the standby
generation is empty, the active generation is exactly the set of the keys
passed to `insert`, and `find(k)` returns true for every such key. Every
initial part of such a sequence is such a sequence, so this holds throughout. -/
theorem C20_positive_capacity_retains_every_key (os : List (op K))
    (hpos : ∀ o ∈ os, positive_call o = true) :
    ((new : cache K).exec os).active_ = 0 ∧
      ((new : cache K).exec os).standby = ∅ ∧
      ((new : cache K).exec os).active = inserted_keys os ∧
      ∀ k ∈ inserted_keys os, (((new : cache K).exec os).find k).1 = true := by
  have hz : (1 : Int) ≤ (new : cache K).size_ := by
    show (1 : Int) ≤ CACHE_DEFAULT_MAXSIZE
    decide
  obtain ⟨_, _, hi, h1, h0⟩ := exec_positive os (new : cache K) rfl hz rfl rfl hpos
  have ha : ((new : cache K).exec os).active = inserted_keys os := by
    unfold active setstore_
    rw [if_pos hi, h0]
    show ∅ ∪ inserted_keys os = inserted_keys os
    exact Finset.empty_union _
  refine ⟨hi, ?_, ha, ?_⟩
  · unfold standby setstore_
    rw [hi, if_neg (by decide), h1]
  · intro k hk
    rw [find_fst, ha]
    simp [hk]

/-- Instance of C20: 1, 2 inserted, the capacity lowered to 1, then 3 inserted
and 1 looked up; all three keys are in the active set and 1 is found. -/
theorem C20_positive_capacity_retains_every_key_witness :
    ((new : cache Nat).exec
        [op.insert 1, op.insert 2, op.set_size 1, op.insert 3, op.find 1]).active_ = 0 ∧
      ((new : cache Nat).exec
        [op.insert 1, op.insert 2, op.set_size 1, op.insert 3, op.find 1]).standby = ∅ ∧
      ((new : cache Nat).exec
        [op.insert 1, op.insert 2, op.set_size 1, op.insert 3, op.find 1]).active =
          inserted_keys [op.insert 1, op.insert 2, op.set_size 1, op.insert 3, op.find 1] ∧
      ∀ k ∈ inserted_keys [op.insert 1, op.insert 2, op.set_size 1, op.insert 3, op.find (1 : Nat)],
        (((new : cache Nat).exec
          [op.insert 1, op.insert 2, op.set_size 1, op.insert 3, op.find 1]).find k).1 = true :=
  C20_positive_capacity_retains_every_key _ (by decide)

end lru.cache
